import Mathlib

/-!
# Verification of the josestg personal-blog repository

Shallow embedding of the pieces of the repository that the specification
talks about:

* the markdown rendering pipeline (`src/libs/md2html-parser.ts`, seen as
  `src/unnamed/part_001`): a fixed `unified()` chain of plugin steps;
* the static content loaders (`src/pages/index.tsx` and
  `src/pages/posts/[slug].tsx`): read content files, split front-matter,
  compute reading time, derive a slug from the filename;
* the GitHub statistics API handlers (`src/pages/api/github/languages.ts`
  and the stars handler): aggregate star counts and language-usage
  percentages over a repository list.

The repository's own code is translated directly.  The third-party
libraries it calls (unified/remark/rehype plugins, `gray-matter`,
`reading-time`) are not part of the repository; where a claim depends on
their behaviour they are modelled from the specification's description of
them, and each such definition is marked `Modelled from the spec:` in its
doc comment.

Strings are processed as `List Char` internally; all definitions are
executable so that concrete inputs evaluate by `decide`/`rfl`.
-/

namespace Josestg

/-! ## Character-list utilities -/

/-- Whitespace test used for word counting and blank-line detection. -/
def isWsChar (c : Char) : Bool :=
  c = ' ' || c = '\n' || c = '\t' || c = '\r'

/-- A list of characters consisting only of whitespace (a blank line). -/
def isBlank (l : List Char) : Bool :=
  l.all isWsChar

/-- Split a character list on newline characters (the line structure the
line-based markdown model works with). -/
def splitOnNl : List Char → List (List Char)
  | [] => [[]]
  | c :: rest =>
    if c = '\n' then
      [] :: splitOnNl rest
    else
      match splitOnNl rest with
      | [] => [[c]]
      | seg :: segs => (c :: seg) :: segs

/-- True exactly when `pat` occurs contiguously in `s`. -/
def containsSubstr (s pat : List Char) : Bool :=
  match s with
  | [] => pat.isEmpty
  | _ :: rest => pat.isPrefixOf s || containsSubstr rest pat

/-- JavaScript `String.prototype.replace` with a plain-string pattern and
empty replacement: removes the FIRST occurrence of `pat` only. -/
def replaceFirst : List Char → List Char → List Char
  | [], _ => []
  | c :: rest, pat =>
    if pat.isPrefixOf (c :: rest) then
      (c :: rest).drop pat.length
    else
      c :: replaceFirst rest pat

/-! ## Slug derivation

Both call sites derive the slug the same way:
`filename.replace(".md", "")` (src/pages/index.tsx line 58 and
src/pages/posts/[slug].tsx line 94). -/

/-- The derivation `filename.replace(".md", "")`: drop the first
occurrence of `".md"`. -/
def deriveSlug (filename : String) : String :=
  String.mk (replaceFirst filename.data ".md".data)

/-! ## Reading time -/

/-- Number of maximal runs of non-whitespace characters (the `/\S+/g`
word count used by the `reading-time` library).  `inWord` records whether
the previous character was part of a word. -/
def countWordsAux : List Char → Bool → Nat
  | [], _ => 0
  | c :: rest, inWord =>
    if isWsChar c then countWordsAux rest false
    else (if inWord then 0 else 1) + countWordsAux rest true

/-- Word count of a markdown body. -/
def countWords (s : List Char) : Nat :=
  countWordsAux s false

/-- Modelled from the spec: the external `reading-time` library (not part
of this repository) "computes an estimated reading time from word count";
it estimates minutes as word count over a 200 words-per-minute default,
rounded up. -/
def readTimeMinutes (words : Nat) : Nat :=
  (words + 199) / 200

/-- The `readingTime.text` field stored into `ContentMetadata.readTime`:
`"<minutes> min read"`. -/
def readTimeText (words : Nat) : String :=
  toString (readTimeMinutes words) ++ " min read"

/-! ## Front-matter (gray-matter model) -/

/-- Drop leading and trailing whitespace. -/
def trimChars (l : List Char) : List Char :=
  ((l.dropWhile isWsChar).reverse.dropWhile isWsChar).reverse

/-- Split a front-matter line at its first `':'` into a key/value pair;
a line without a colon carries no key/value pair. -/
def parsePair (l : List Char) : Option (String × String) :=
  match l.splitOn ':' with
  | [] => none
  | [_] => none
  | key :: rest =>
    some (String.mk (trimChars key),
          String.mk (trimChars (List.intercalate [':'] rest)))

/-- Join lines back with newlines (inverse direction of `splitOnNl`). -/
def joinLines (ls : List (List Char)) : List Char :=
  List.intercalate ['\n'] ls

/-- Modelled from the spec: the external `gray-matter` library (not part
of this repository).  Per the glossary, front-matter is the "key/value
metadata block at the top of a markdown file", delimited by `---` lines;
the remainder is the body.  Returns the key/value pairs and the body.
A file that does not start with `---` has no front-matter. -/
def grayMatter (raw : List Char) : List (String × String) × List Char :=
  match splitOnNl raw with
  | [] => ([], raw)
  | first :: rest =>
    if first = "---".data then
      let fmLines := rest.takeWhile (fun l => l ≠ "---".data)
      let body := rest.drop (fmLines.length + 1)
      (fmLines.filterMap parsePair, joinLines body)
    else ([], raw)

/-- First-match lookup of a front-matter key (JS property access on the
parsed front-matter object; absent key = `undefined` = `none`). -/
def lookupKey (pairs : List (String × String)) (key : String) : Option String :=
  match pairs with
  | [] => none
  | (k, v) :: rest => if k = key then some v else lookupKey rest key

/-! ## ContentMetadata and the two loaders -/

/-- The `ContentMetadata` shape from `src/types`.  Front-matter fields may
be `undefined` in JS when absent/malformed, hence `Option`; `slug` and
`readTime` are always computed by the loaders. -/
structure ContentMetadata where
  title : Option String
  categories : Option String
  dateCreated : Option String
  intro : Option String
  useLatex : Option String
  slug : String
  readTime : String
  deriving Repr, DecidableEq

/-- The metadata built by `getStaticProps` of `src/pages/index.tsx`
(lines 48-60) for one directory entry `filename` with file content
`raw`. -/
def metadataIndex (filename : String) (raw : List Char) : ContentMetadata :=
  let m := grayMatter raw
  let markdownMetadata := m.1
  let content := m.2
  { title := lookupKey markdownMetadata "title"
    categories := lookupKey markdownMetadata "categories"
    dateCreated := lookupKey markdownMetadata "dateCreated"
    intro := lookupKey markdownMetadata "intro"
    useLatex := lookupKey markdownMetadata "useLatex"
    slug := deriveSlug filename
    readTime := readTimeText (countWords content) }

/-- The metadata built by `getStaticProps` of
`src/pages/posts/[slug].tsx` (lines 117-129) for route parameter `slug`
with file content `raw` (the file read is `slug + ".md"`). -/
def metadataSlug (slug : String) (raw : List Char) : ContentMetadata :=
  let m := grayMatter raw
  let markdownMetadata := m.1
  let content := m.2
  { slug := slug
    readTime := readTimeText (countWords content)
    intro := lookupKey markdownMetadata "intro"
    title := lookupKey markdownMetadata "title"
    useLatex := lookupKey markdownMetadata "useLatex"
    categories := lookupKey markdownMetadata "categories"
    dateCreated := lookupKey markdownMetadata "dateCreated" }

/-- The five schema fields of the front-matter contract. -/
inductive SchemaField
  | title | dateCreated | intro | categories | useLatex
  deriving Repr, DecidableEq

/-- Front-matter key of a schema field. -/
def fieldKey : SchemaField → String
  | .title => "title"
  | .dateCreated => "dateCreated"
  | .intro => "intro"
  | .categories => "categories"
  | .useLatex => "useLatex"

/-- Projection of a schema field out of a `ContentMetadata`. -/
def getField (m : ContentMetadata) : SchemaField → Option String
  | .title => m.title
  | .dateCreated => m.dateCreated
  | .intro => m.intro
  | .categories => m.categories
  | .useLatex => m.useLatex

/-! ## Build-time file system model

A content directory is the `readdirSync` listing paired with each file's
content; `none` stands for a file that cannot be read (where
`readFileSync` throws).  A loader that throws yields `none` overall. -/

/-- Reading a file (`readFileSync`) from the directory: `none` when the file is missing or
unreadable (the JS call throws). -/
def readFile (dir : List (String × Option String)) (name : String) :
    Option String :=
  match dir with
  | [] => none
  | (n, c) :: rest => if n = name then c else readFile rest name

/-- The `getStaticProps` of `src/pages/index.tsx` (lines 39-70): map over the
directory listing, reading each file and building its metadata; a
`readFileSync` throw aborts the whole computation with no partial
result. -/
def loadIndex (dir : List (String × Option String)) :
    Option (List ContentMetadata) :=
  match dir with
  | [] => some []
  | (filename, content) :: rest =>
    match content with
    | none => none
    | some c =>
      match loadIndex rest with
      | none => none
      | some ms => some (metadataIndex filename c.data :: ms)

/-- The `getStaticProps` of `src/pages/posts/[slug].tsx` (lines 108-141):
read `slug + ".md"` and build its metadata; a `readFileSync` throw
yields no result. -/
def loadSlugPage (dir : List (String × Option String)) (slug : String) :
    Option ContentMetadata :=
  match readFile dir (slug ++ ".md") with
  | none => none
  | some c => some (metadataSlug slug c.data)

/-! ## Markdown rendering pipeline

`src/libs/md2html-parser.ts` builds a fixed `unified()` chain:

```
unified()
  .use(settings position:false) -- processor configuration, not a transform
  .use(remark) .use(gfm) .use(math)
  .use(remark2rehype)
  .use(prism) .use(figure) .use(katex) .use(raw) .use(minify)
  .use(stringify)
  .processSync(md).toString()
```

The plugin chain itself is repository code and is embedded exactly, as
the list `pipelineSteps` below.  The behaviour of each plugin lives in
external libraries; each step's semantics is modelled from the spec's
one-phrase description of it (see `runStep`). -/

/-- Inline content of a paragraph: plain text or GFM strikethrough. -/
inductive Inline
  | txt (s : List Char)
  | del (s : List Char)
  deriving Repr, DecidableEq

/-- Markdown syntax tree (mdast) nodes, at the line-based granularity of
the model. -/
inductive MdNode
  | paragraph (content : List Inline)
  | heading (level : Nat) (text : List Char)
  | code (body : List Char)
  | image (url alt : List Char)
  | html (s : List Char)
  | mathBlock (tex : List Char)
  | tableRow (cells : List (List Char))
  deriving Repr, DecidableEq

/-- HTML syntax tree (hast) nodes.  `raw` is a raw-HTML fragment carried
through from markdown; `inlined` is such a fragment after the
`rehype-raw` step has inlined it into the tree (it serializes
verbatim, while a `raw` node left in place would serialize escaped). -/
inductive HNode
  | element (tag : String) (attrs : List (String × String)) (children : List HNode)
  | text (s : List Char)
  | raw (s : List Char)
  | inlined (s : List Char)
  deriving Repr

/-- Split a character list on occurrences of `"~~"` (the GFM
strikethrough delimiter). -/
def splitTildes : List Char → List (List Char)
  | [] => [[]]
  | '~' :: '~' :: rest => [] :: splitTildes rest
  | c :: rest =>
    match splitTildes rest with
    | [] => [[c]]
    | seg :: segs => (c :: seg) :: segs

/-- Segments between `"~~"` delimiters alternate between plain text and
struck-through text. -/
def alternateInline : List (List Char) → Bool → List Inline
  | [], _ => []
  | s :: rest, inDel =>
    (if inDel then Inline.del s else Inline.txt s) :: alternateInline rest (!inDel)

/-- Modelled from the spec: "parse markdown" (the remark parser, external
to the repository), at a light line-based level: a blank line is
insignificant; a line starting with `<` is a raw HTML fragment; `#`
introduces a heading; `![` an image; four leading spaces a code block;
anything else a paragraph. -/
def classifyLine (l : List Char) : Option MdNode :=
  if isBlank l then none
  else if "<".data.isPrefixOf l then some (.html l)
  else if "#".data.isPrefixOf l then
    some (.heading (l.takeWhile (fun c => c = '#')).length
      (trimChars (l.dropWhile (fun c => c = '#'))))
  else if "![".data.isPrefixOf l then
    some (.image
      (((l.dropWhile (fun c => c ≠ ']')).drop 2).takeWhile (fun c => c ≠ ')'))
      ((l.drop 2).takeWhile (fun c => c ≠ ']')))
  else if "    ".data.isPrefixOf l then some (.code (l.drop 4))
  else some (.paragraph [.txt l])

/-- Parse a markdown source into its block nodes, line by line. -/
def parseMd (s : List Char) : List MdNode :=
  (splitOnNl s).filterMap classifyLine

/-- Cells of a GFM table row: split on `|`, trim, drop empties. -/
def tableCells (l : List Char) : List (List Char) :=
  ((l.splitOn '|').map trimChars).filter (fun c => c ≠ [])

/-- Modelled from the spec: "apply GFM extensions (tables,
strikethrough)" — a paragraph line starting with `|` becomes a table
row; `~~` spans in paragraph text become strikethrough inlines. -/
def gfmNode : MdNode → MdNode
  | .paragraph inls =>
    match inls with
    | [.txt l] =>
      if "|".data.isPrefixOf l then .tableRow (tableCells l)
      else .paragraph (alternateInline (splitTildes l) false)
    | _ => .paragraph inls
  | n => n

/-- Modelled from the spec: "apply math-expression extension" — a
paragraph delimited by `$$` becomes a math block. -/
def mathNode : MdNode → MdNode
  | .paragraph [.txt l] =>
    if "$$".data.isPrefixOf l then .mathBlock (l.filter (fun c => c ≠ '$'))
    else .paragraph [.txt l]
  | n => n

/-- Hast form of one inline. -/
def inlineToHast : Inline → HNode
  | .txt s => .text s
  | .del s => .element "del" [] [.text s]

/-- Modelled from the spec: "convert to an HTML-like tree" (the
`remark-rehype` bridge).  Raw markdown HTML becomes a raw hast fragment,
everything else becomes elements and text. -/
def toHast : MdNode → HNode
  | .paragraph inls => .element "p" [] (inls.map inlineToHast)
  | .heading n t => .element ("h" ++ toString n) [] [.text t]
  | .code body => .element "pre" [] [.element "code" [] [.text body]]
  | .image url alt =>
    .element "img" [("src", String.mk url), ("alt", String.mk alt)] []
  | .html s => .raw s
  | .mathBlock tex => .element "div" [("class", "math")] [.text tex]
  | .tableRow cells =>
    .element "tr" [] (cells.map (fun c => .element "td" [] [.text c]))

/-- Modelled from the spec: "apply syntax highlighting to code blocks"
(mdx-prism) — the code text inside a `pre > code` block is wrapped in a
token span. -/
def prismNode : HNode → HNode
  | .element "pre" a [.element "code" a2 cs] =>
    .element "pre" a
      [.element "code" a2 [.element "span" [("class", "token")] cs]]
  | n => n

/-- Modelled from the spec: "wrap images in figure/caption elements"
(rehype-figure). -/
def figureNode : HNode → HNode
  | .element "img" attrs cs =>
    .element "figure" []
      [.element "img" attrs cs,
       .element "figcaption" []
         [.text ((lookupKey attrs "alt").getD "").data]]
  | n => n

/-- Modelled from the spec: the KaTeX rendering step — a math block is
rendered into a KaTeX HTML span. -/
def katexNode : HNode → HNode
  | .element "div" [("class", "math")] cs =>
    .element "span" [("class", "katex")] cs
  | n => n

/-- Modelled from the spec: "inline raw HTML fragments" (rehype-raw) —
a raw fragment carried through from the markdown source is inlined into
the tree, so that it reaches the output verbatim. -/
def rawNode : HNode → HNode
  | .raw s => .inlined s
  | n => n

/-- Collapse each run of whitespace to a single space. -/
def collapseWsAux : List Char → Bool → List Char
  | [], _ => []
  | c :: rest, prevWs =>
    if isWsChar c then
      if prevWs then collapseWsAux rest true
      else ' ' :: collapseWsAux rest true
    else c :: collapseWsAux rest false

/-- Collapse insignificant whitespace in a character list. -/
def collapseWs (s : List Char) : List Char :=
  collapseWsAux s false

mutual

/-- Modelled from the spec: "collapse insignificant whitespace"
(rehype-minify-whitespace), applied to every text node of the tree. -/
def minifyNode : HNode → HNode
  | .text s => .text (collapseWs s)
  | .raw s => .raw s
  | .inlined s => .inlined s
  | .element t a cs => .element t a (minifyList cs)

/-- Apply `minifyNode` over a child list. -/
def minifyList : List HNode → List HNode
  | [] => []
  | n :: ns => minifyNode n :: minifyList ns

end

/-- HTML text escaping used by the serializer. -/
def escapeChar : Char → List Char
  | '<' => "&lt;".data
  | '>' => "&gt;".data
  | '&' => "&amp;".data
  | c => [c]

/-- Escape a character list for inclusion in HTML text. -/
def escapeHtml : List Char → List Char
  | [] => []
  | c :: rest => escapeChar c ++ escapeHtml rest

/-- Serialize an attribute list: ` key="value"` for each pair. -/
def serializeAttrs : List (String × String) → List Char
  | [] => []
  | (k, v) :: rest =>
    ' ' :: k.data ++ '=' :: '"' :: v.data ++ '"' :: serializeAttrs rest

mutual

/-- Modelled from the spec: "serialize to string" (rehype-stringify):
elements get tags and attributes, text is escaped, an inlined raw
fragment is emitted verbatim, a raw fragment never inlined would be
emitted inert (escaped). -/
def serializeNode : HNode → List Char
  | .text s => escapeHtml s
  | .raw s => escapeHtml s
  | .inlined s => s
  | .element t a cs =>
    '<' :: t.data ++ serializeAttrs a ++ '>' :: serializeList cs
      ++ '<' :: '/' :: t.data ++ ['>']

/-- Apply `serializeNode` over a node list, concatenating the results. -/
def serializeList : List HNode → List Char
  | [] => []
  | n :: ns => serializeNode n ++ serializeList ns

end

/-- One transform step of the unified chain, one constructor per `.use`
call of `src/libs/md2html-parser.ts` (the initial
`.use(settings position:false)` configures the processor and is not a
transform step). -/
inductive Step
  | parseMarkdown
  | applyGfm
  | applyMath
  | toHtmlTree
  | highlightCode
  | wrapFigures
  | renderKatex
  | inlineRawHtml
  | collapseWhitespace
  | serializeHtml
  deriving Repr, DecidableEq

/-- Pipeline state: markdown source, mdast, hast, or serialized output. -/
inductive PState
  | src (s : List Char)
  | mdast (ns : List MdNode)
  | hast (ns : List HNode)
  | out (s : List Char)
  deriving Repr

/-- Semantics of one pipeline step on the pipeline state. -/
def runStep : Step → PState → PState
  | .parseMarkdown, .src s => .mdast (parseMd s)
  | .applyGfm, .mdast ns => .mdast (ns.map gfmNode)
  | .applyMath, .mdast ns => .mdast (ns.map mathNode)
  | .toHtmlTree, .mdast ns => .hast (ns.map toHast)
  | .highlightCode, .hast ns => .hast (ns.map prismNode)
  | .wrapFigures, .hast ns => .hast (ns.map figureNode)
  | .renderKatex, .hast ns => .hast (ns.map katexNode)
  | .inlineRawHtml, .hast ns => .hast (ns.map rawNode)
  | .collapseWhitespace, .hast ns => .hast (ns.map minifyNode)
  | .serializeHtml, .hast ns => .out (serializeList ns)
  | _, st => st

/-- The transform chain of `src/libs/md2html-parser.ts`, in source
order: remark, gfm, math, remark2rehype, prism, figure, katex, raw,
minify, stringify. -/
def pipelineSteps : List Step :=
  [.parseMarkdown, .applyGfm, .applyMath, .toHtmlTree, .highlightCode,
   .wrapFigures, .renderKatex, .inlineRawHtml, .collapseWhitespace,
   .serializeHtml]

/-- Modelled from the spec: the chain the specification claims —
"parse markdown → apply GFM extensions → apply math-expression
extension → convert to an HTML-like tree → apply syntax highlighting to
code blocks → wrap images in figure/caption elements → inline raw HTML
fragments → collapse insignificant whitespace → serialize to string". -/
def specClaimedSteps : List Step :=
  [.parseMarkdown, .applyGfm, .applyMath, .toHtmlTree, .highlightCode,
   .wrapFigures, .inlineRawHtml, .collapseWhitespace, .serializeHtml]

/-- Run a chain of steps left to right. -/
def runSteps (steps : List Step) (st : PState) : PState :=
  steps.foldl (fun st step => runStep step st) st

/-- The `parse` function of `src/libs/md2html-parser.ts`: run the fixed
chain on the markdown source and take the resulting string. -/
def render (md : String) : String :=
  match runSteps pipelineSteps (.src md.data) with
  | .out s => String.mk s
  | _ => ""

/-! ## GitHub statistics handlers

`src/pages/api/github/languages.ts` (the language-usage handler and the
star-count handler).  The upstream JSON list is modelled as a list of
`GithubRepository` records; the floating-point `100 / total` increments
are modelled over `ℚ`. -/

/-- The fields of the upstream repository DTO that the handlers read. -/
structure GithubRepository where
  fork : Bool
  language : String
  stargazers_count : Nat
  deriving Repr, DecidableEq

/-- The `isExcludedLanguage` helper of `src/pages/api/github/languages.ts`
(lines 5-9). -/
def isExcludedLanguage (language : String) : Bool :=
  language = "HTML" || language = "CSS" || language = "Jupyter Notebook"

/-- The `languages` array of the handler: keep non-fork repositories
whose language is not excluded, and take their languages. -/
def keptLanguages (repositories : List GithubRepository) : List String :=
  (repositories.filter
      (fun repository =>
        !repository.fork && !isExcludedLanguage repository.language)).map
    (fun repository => repository.language)

/-- One step of the `persentase` accumulator object: add `inc` to the
entry for `lang`, creating it (at the end, as JS object key insertion
order does) when absent. -/
def bump (acc : List (String × ℚ)) (lang : String) (inc : ℚ) :
    List (String × ℚ) :=
  match acc with
  | [] => [(lang, inc)]
  | (k, v) :: rest =>
    if k = lang then (k, v + inc) :: rest
    else (k, v) :: bump rest lang inc

/-- One entry of the handler's response array. -/
structure LanguageStat where
  name : String
  persentase : ℚ
  deriving Repr, DecidableEq

/-- Insert into a list kept sorted by non-increasing `persentase`. -/
def insertDesc (x : LanguageStat) : List LanguageStat → List LanguageStat
  | [] => [x]
  | y :: ys =>
    if y.persentase ≤ x.persentase then x :: y :: ys
    else y :: insertDesc x ys

/-- The `.sort((a, b) => b.persentase - a.persentase)` call: sort by
non-increasing `persentase`. -/
def sortDesc (l : List LanguageStat) : List LanguageStat :=
  l.foldr insertDesc []

/-- The `stats` array computed from the kept language list: accumulate
`100 / total` per occurrence into the `persentase` table, reshape the
entries, sort descending by `persentase`. -/
def statsOfLanguages (languages : List String) : List LanguageStat :=
  let total := languages.length
  let persentase :=
    languages.foldl (fun acc language => bump acc language (100 / (total : ℚ))) []
  sortDesc (persentase.map (fun p => { name := p.1, persentase := p.2 }))

/-- The language-usage handler's response for an upstream repository
list. -/
def languagesStats (repositories : List GithubRepository) : List LanguageStat :=
  statsOfLanguages (keptLanguages repositories)

/-- The star-count handler's reduction (stars handler, lines 65-68):
sum `stargazers_count` over non-fork repositories. -/
def starsCount (repositories : List GithubRepository) : Nat :=
  repositories.foldl
    (fun accumulator repository =>
      if repository.fork then accumulator
      else accumulator + repository.stargazers_count) 0

/-! ## Helper lemmas -/

/-- Removing the first occurrence of a pattern that does not occur at
all leaves the list unchanged. -/
theorem replaceFirst_of_not_contains (pat : List Char) :
    ∀ s : List Char, containsSubstr s pat = false → replaceFirst s pat = s := by
  intro s
  induction s with
  | nil => intro _; rfl
  | cons c rest ih =>
    intro h
    rw [containsSubstr, Bool.or_eq_false_iff] at h
    rw [replaceFirst, if_neg (by simp [h.1]), ih h.2]

/-! ## Claim C2: the transform chain -/

/-- C2, counterexample: the renderer's transform chain is NOT exactly
the chain the specification claims — the claimed chain has no KaTeX
rendering step, while the code applies `rehype-katex` between the
figure-wrapping and raw-inlining steps. -/
theorem pipeline_steps_cex : pipelineSteps ≠ specClaimedSteps := by decide

/-- C2, amended: the renderer applies exactly the spec's claimed chain
with one additional KaTeX math-rendering transform inserted between the
figure-wrapping step and the raw-HTML-inlining step (and no other
transform steps, in this order, branch-free). -/
theorem pipeline_steps_exact :
    pipelineSteps =
      specClaimedSteps.take 6 ++ Step.renderKatex :: specClaimedSteps.drop 6 := by
  decide

/-! ## Claim C4: slug derivation -/

/-- C4, counterexample: slug derivation removes only the FIRST
occurrence of `".md"`, so it is not idempotent — for the filename
`"a.md.md"` the derived slug is `"a.md"`, and deriving again yields
`"a"`. -/
theorem slug_not_idempotent_cex :
    deriveSlug (deriveSlug "a.md.md") ≠ deriveSlug "a.md.md" := by decide

/-- C4, amended: slug derivation is the pure function
`filename.replace(".md", "")` (removing the first `".md"` occurrence),
used identically at both call sites; it is idempotent exactly on those
filenames whose derived slug no longer contains `".md"` (which includes
every filename with a single trailing `".md"` extension). -/
theorem slug_idempotent_of_no_md_left (f : String)
    (h : containsSubstr (deriveSlug f).data ".md".data = false) :
    deriveSlug (deriveSlug f) = deriveSlug f :=
  congrArg String.mk (replaceFirst_of_not_contains ".md".data _ h)

/-- Witness for C4's amended theorem at the filename `"intro.md"`. -/
theorem slug_idempotent_witness :
    containsSubstr (deriveSlug "intro.md").data ".md".data = false ∧
    deriveSlug (deriveSlug "intro.md") = deriveSlug "intro.md" :=
  ⟨by decide, slug_idempotent_of_no_md_left "intro.md" (by decide)⟩

/-! ## Claim C5: reading time monotonicity -/

/-- C5: the estimated reading time is monotonic in the word count of
the markdown body — a body with at least as many words gets an equal or
greater estimated time. -/
theorem readTime_monotone (b1 b2 : String)
    (h : countWords b1.data ≤ countWords b2.data) :
    readTimeMinutes (countWords b1.data) ≤ readTimeMinutes (countWords b2.data) :=
  Nat.div_le_div_right (Nat.add_le_add_right h 199)

/-- Witness for C5 at two concrete bodies. -/
theorem readTime_monotone_witness :
    countWords "one two".data ≤ countWords "one two three".data ∧
    readTimeMinutes (countWords "one two".data) ≤
      readTimeMinutes (countWords "one two three".data) :=
  ⟨by decide, readTime_monotone "one two" "one two three" (by decide)⟩

/-! ## Claim C10: the two loaders agree -/

/-- C10: for the same content file (a filename from which the slug
route re-reads the identical file), the `ContentMetadata` computed by
the index page's `getStaticProps` and by the per-slug page's
`getStaticProps` agree in every field. -/
theorem loaders_agree (f : String) (raw : List Char)
    (_h : deriveSlug f ++ ".md" = f) :
    metadataSlug (deriveSlug f) raw = metadataIndex f raw := rfl

/-- Witness for C10 at the `adapter.md` content file. -/
theorem loaders_agree_witness :
    deriveSlug "adapter.md" ++ ".md" = "adapter.md" ∧
    metadataSlug (deriveSlug "adapter.md") "body".data =
      metadataIndex "adapter.md" "body".data :=
  ⟨by decide, loaders_agree "adapter.md" "body".data (by decide)⟩

/-! ## Claim C6: fail-fast loading -/

/-- An unreadable entry anywhere in the directory makes the whole index
load fail with no partial result. -/
theorem loadIndex_none_of_unreadable {e : String × Option String} :
    ∀ dir : List (String × Option String), e ∈ dir → e.2 = none →
      loadIndex dir = none := by
  intro dir
  induction dir with
  | nil => intro he _; cases he
  | cons hd tl ih =>
    intro he hnone
    obtain ⟨n, c⟩ := hd
    rcases List.mem_cons.mp he with heq | hmem
    · have hc : c = none := by rw [heq] at hnone; exact hnone
      simp [loadIndex, hc]
    · have h2 := ih hmem hnone
      cases c <;> simp [loadIndex, h2]

/-- C6: if a content file cannot be read, the loaders produce no
result at all — the index page's `getStaticProps` fails whenever any
directory entry is unreadable, and the per-slug page's `getStaticProps`
fails whenever its file cannot be read. -/
theorem loader_fails_fast (dir : List (String × Option String)) :
    ((∃ e ∈ dir, e.2 = none) → loadIndex dir = none) ∧
    (∀ slug, readFile dir (slug ++ ".md") = none →
      loadSlugPage dir slug = none) := by
  refine ⟨fun ⟨e, he, hn⟩ => loadIndex_none_of_unreadable dir he hn,
    fun slug h => ?_⟩
  simp [loadSlugPage, h]

/-- Witness for C6 at a one-entry directory whose file is unreadable. -/
theorem loader_fails_fast_witness :
    loadIndex [("a.md", (none : Option String))] = none ∧
    loadSlugPage [("a.md", (none : Option String))] "a" = none :=
  ⟨(loader_fails_fast _).1 ⟨("a.md", none), by simp, rfl⟩,
   (loader_fails_fast _).2 "a" (by decide)⟩

/-! ## Claim C7: missing front-matter fields -/

/-- C7: a schema field absent from (or malformed in, hence absent from
the parsed pairs of) the front-matter never makes the loaders throw:
both loaders produce metadata with that field `undefined` while `slug`
and `readTime` are still computed. -/
theorem missing_frontmatter_field_undefined (f : String) (raw : List Char)
    (fld : SchemaField)
    (h : lookupKey (grayMatter raw).1 (fieldKey fld) = none) :
    getField (metadataIndex f raw) fld = none ∧
    (∀ s, getField (metadataSlug s raw) fld = none) ∧
    (metadataIndex f raw).slug = deriveSlug f ∧
    (metadataIndex f raw).readTime =
      readTimeText (countWords (grayMatter raw).2) := by
  cases fld <;> simp_all [metadataIndex, metadataSlug, getField, fieldKey]

/-- Witness for C7 at a file with no front-matter at all. -/
theorem missing_frontmatter_witness :
    lookupKey (grayMatter "hello world".data).1 (fieldKey SchemaField.title) =
      none ∧
    getField (metadataIndex "hello.md" "hello world".data) SchemaField.title =
      none :=
  ⟨by decide,
   (missing_frontmatter_field_undefined "hello.md" "hello world".data
      SchemaField.title (by decide)).1⟩

/-! ## Claim C8: fork repositories excluded -/

/-- C8: a repository marked as a fork contributes neither to the summed
star count nor to the language-usage percentages — inserting it
anywhere in the upstream list leaves both handler results unchanged. -/
theorem fork_repos_excluded (l1 l2 : List GithubRepository)
    (r : GithubRepository) (h : r.fork = true) :
    languagesStats (l1 ++ r :: l2) = languagesStats (l1 ++ l2) ∧
    starsCount (l1 ++ r :: l2) = starsCount (l1 ++ l2) := by
  constructor
  · simp [languagesStats, keptLanguages, List.filter_append, List.filter_cons, h]
  · simp [starsCount, List.foldl_append, h]

/-- Witness for C8: a starred fork inserted in front of a non-fork
repository changes neither handler result. -/
theorem fork_repos_excluded_witness :
    languagesStats ([] ++ ⟨true, "Rust", 5⟩ :: [⟨false, "Go", 3⟩]) =
      languagesStats ([] ++ [⟨false, "Go", 3⟩]) ∧
    starsCount ([] ++ ⟨true, "Rust", 5⟩ :: [⟨false, "Go", 3⟩]) =
      starsCount ([] ++ [⟨false, "Go", 3⟩]) :=
  fork_repos_excluded [] [⟨false, "Go", 3⟩] ⟨true, "Rust", 5⟩ rfl

/-! ## Rendering lemmas -/

/-- A character list without newlines is a single line. -/
theorem splitOnNl_eq_single :
    ∀ s : List Char, '\n' ∉ s → splitOnNl s = [s] := by
  intro s
  induction s with
  | nil => intro _; rfl
  | cons c rest ih =>
    intro h
    have hc : ¬ c = '\n' := fun hh => h (List.mem_cons.mpr (Or.inl hh.symm))
    have h1 : '\n' ∉ rest := fun hm => h (List.mem_cons_of_mem c hm)
    simp [splitOnNl, hc, ih h1]

/-- A line starting with `<` is not blank. -/
theorem isBlank_cons_lt (t : List Char) : isBlank ('<' :: t) = false := by
  rw [isBlank, List.all_cons, show isWsChar '<' = false by decide,
    Bool.false_and]

/-- The string `"<"` is a prefix of any list starting with `'<'`. -/
theorem isPrefixOf_cons_lt (t : List Char) :
    "<".data.isPrefixOf ('<' :: t) = true := by
  rw [show "<".data = ['<'] from rfl]
  simp [List.isPrefixOf]

/-- A line starting with `<` parses as a raw HTML fragment. -/
theorem classifyLine_html (t : List Char) :
    classifyLine ('<' :: t) = some (MdNode.html ('<' :: t)) := by
  unfold classifyLine
  rw [isBlank_cons_lt, isPrefixOf_cons_lt]
  simp

/-- Unfolding of `render` to its composition of pipeline stage maps. -/
theorem render_eq (md : String) :
    render md = String.mk (serializeList (List.map minifyNode (List.map rawNode
      (List.map katexNode (List.map figureNode (List.map prismNode
        (List.map toHast (List.map mathNode (List.map gfmNode
          (parseMd md.data)))))))))) := rfl

/-! ## Claim C1: no sanitization -/

/-- C1, counterexample: the rendered output of a markdown input holding
a script tag contains that script tag verbatim — raw HTML is passed
through, not sanitized. -/
theorem rawHtml_passthrough_cex :
    render "<script>alert(1)</script>" = "<script>alert(1)</script>" ∧
    containsSubstr "<script>alert(1)</script>".data "<script".data = true ∧
    containsSubstr (render "<script>alert(1)</script>").data "<script".data =
      true := ⟨by decide, by decide, by decide⟩

/-- C1, amended: the renderer does NOT sanitize: the pipeline's
raw-HTML step inlines raw HTML fragments of the input into the output
unchanged, and no step removes script content — a single-line raw HTML
fragment renders to itself verbatim. -/
theorem rawHtml_inlined_verbatim (t : List Char)
    (hnl : '\n' ∉ '<' :: t) :
    render (String.mk ('<' :: t)) = String.mk ('<' :: t) := by
  rw [render_eq]
  rw [show (String.mk ('<' :: t)).data = '<' :: t from rfl]
  rw [parseMd, splitOnNl_eq_single _ hnl]
  simp only [List.filterMap_cons, classifyLine_html, List.filterMap_nil,
    List.map_cons, List.map_nil]
  simp [gfmNode, mathNode, toHast, prismNode, figureNode, katexNode, rawNode,
    minifyNode, serializeList, serializeNode]

/-- Witness for C1's amended theorem at the fragment `"<b>hi</b>"`. -/
theorem rawHtml_inlined_verbatim_witness :
    '\n' ∉ '<' :: "b>hi</b>".data ∧
    render (String.mk ('<' :: "b>hi</b>".data)) =
      String.mk ('<' :: "b>hi</b>".data) :=
  ⟨by decide, rawHtml_inlined_verbatim "b>hi</b>".data (by decide)⟩

/-! ## Claim C3: termination and non-emptiness -/

/-- Shape invariant of a top-level tree node as it moves through the
hast stages: it is an element, or a raw/inlined fragment with non-empty
text (so it serializes to something non-empty). -/
def topOk : HNode → Prop
  | .element _ _ _ => True
  | .text _ => False
  | .raw s => s ≠ []
  | .inlined s => s ≠ []

/-- A non-blank line always parses to some markdown node. -/
theorem classifyLine_isSome {l : List Char} (h : isBlank l = false) :
    (classifyLine l).isSome := by
  unfold classifyLine
  rw [h]
  split_ifs <;> simp_all

/-- A source with a non-blank line parses to a non-empty node list. -/
theorem parseMd_ne_nil {s : List Char}
    (h : ∃ l ∈ splitOnNl s, isBlank l = false) : parseMd s ≠ [] := by
  obtain ⟨l, hl, hb⟩ := h
  intro hnil
  have hnone := List.filterMap_eq_nil_iff.mp hnil l hl
  have h2 := classifyLine_isSome hb
  rw [hnone] at h2
  cases h2

/-- The math step keeps a paragraph as an element-producing node. -/
theorem topOk_math_paragraph (inls : List Inline) :
    topOk (toHast (mathNode (.paragraph inls))) := by
  match inls with
  | [] => simp [mathNode, toHast, topOk]
  | [Inline.txt l] =>
    rw [show mathNode (.paragraph [Inline.txt l]) =
        (if "$$".data.isPrefixOf l then
          MdNode.mathBlock (l.filter (fun c => c ≠ '$'))
        else MdNode.paragraph [Inline.txt l]) from rfl]
    split
    · simp [toHast, topOk]
    · simp [toHast, topOk]
  | Inline.txt l :: i :: rest => simp [mathNode, toHast, topOk]
  | Inline.del s :: rest => simp [mathNode, toHast, topOk]

/-- After the gfm and math steps, a paragraph still produces an
element. -/
theorem topOk_gfm_math_paragraph (inls : List Inline) :
    topOk (toHast (mathNode (gfmNode (.paragraph inls)))) := by
  match inls with
  | [] => exact topOk_math_paragraph []
  | [Inline.txt l] =>
    rw [show gfmNode (.paragraph [Inline.txt l]) =
        (if "|".data.isPrefixOf l then MdNode.tableRow (tableCells l)
        else MdNode.paragraph (alternateInline (splitTildes l) false)) from rfl]
    split
    · simp [mathNode, toHast, topOk]
    · exact topOk_math_paragraph _
  | Inline.txt l :: i :: rest => exact topOk_math_paragraph _
  | Inline.del s :: rest => exact topOk_math_paragraph _

/-- Every node produced by the parser satisfies the shape invariant
after the mdast stages and the hast conversion. -/
theorem topOk_of_classifyLine {l : List Char} {m : MdNode}
    (h : classifyLine l = some m) :
    topOk (toHast (mathNode (gfmNode m))) := by
  unfold classifyLine at h
  split_ifs at h with h1 h2 h3 h4 h5
  · have hm := Option.some.inj h
    subst hm
    have hne : l ≠ [] := by
      intro hnil
      rw [hnil] at h2
      exact absurd h2 (by decide)
    simp [gfmNode, mathNode, toHast, topOk, hne]
  · have hm := Option.some.inj h
    subst hm
    simp [gfmNode, mathNode, toHast, topOk]
  · have hm := Option.some.inj h
    subst hm
    simp [gfmNode, mathNode, toHast, topOk]
  · have hm := Option.some.inj h
    subst hm
    simp [gfmNode, mathNode, toHast, topOk]
  · have hm := Option.some.inj h
    subst hm
    exact topOk_gfm_math_paragraph _

/-- The syntax highlighting step preserves the shape invariant. -/
theorem topOk_prism {n : HNode} (h : topOk n) : topOk (prismNode n) := by
  unfold prismNode
  split
  · trivial
  · exact h

/-- The figure-wrapping step preserves the shape invariant. -/
theorem topOk_figure {n : HNode} (h : topOk n) : topOk (figureNode n) := by
  unfold figureNode
  split
  · trivial
  · exact h

/-- The KaTeX step preserves the shape invariant. -/
theorem topOk_katex {n : HNode} (h : topOk n) : topOk (katexNode n) := by
  unfold katexNode
  split
  · trivial
  · exact h

/-- The raw-inlining step preserves the shape invariant. -/
theorem topOk_raw {n : HNode} (h : topOk n) : topOk (rawNode n) := by
  unfold rawNode
  split
  · exact h
  · exact h

/-- The whitespace-collapsing step preserves the shape invariant. -/
theorem topOk_minify {n : HNode} (h : topOk n) : topOk (minifyNode n) := by
  cases n with
  | element t a cs => trivial
  | text s => exact absurd h (by simp [topOk])
  | raw s => exact h
  | inlined s => exact h

/-- Escaping a non-empty text is non-empty. -/
theorem escapeHtml_ne_nil {s : List Char} (h : s ≠ []) :
    escapeHtml s ≠ [] := by
  cases s with
  | nil => exact absurd rfl h
  | cons c rest =>
    rw [escapeHtml]
    intro hnil
    have := (List.append_eq_nil.mp hnil).1
    revert this
    unfold escapeChar
    split <;> simp

/-- A node satisfying the shape invariant serializes to a non-empty
string. -/
theorem serializeNode_ne_nil {n : HNode} (h : topOk n) :
    serializeNode n ≠ [] := by
  cases n with
  | element t a cs => rw [serializeNode]; simp
  | text s => exact absurd h (by simp [topOk])
  | raw s => rw [serializeNode]; exact escapeHtml_ne_nil h
  | inlined s => rw [serializeNode]; exact h

/-- C3, counterexample: the empty string is a valid (empty) markdown
document, and the renderer maps it to the EMPTY output string, so the
output is not always non-empty. -/
theorem render_empty_input_cex : render "" = "" := by decide

/-- C3, amended: the renderer is a total function (it never throws),
and for every markdown input containing at least one non-blank line the
rendered HTML string is non-empty. -/
theorem render_nonempty_of_nonblank (md : String)
    (h : ∃ l ∈ splitOnNl md.data, isBlank l = false) :
    render md ≠ "" := by
  have hpm := parseMd_ne_nil h
  cases hpm2 : parseMd md.data with
  | nil => exact absurd hpm2 hpm
  | cons m ms =>
    rw [render_eq, hpm2]
    simp only [List.map_cons]
    intro heq
    have hdata := congrArg String.data heq
    rw [serializeList] at hdata
    have hnil := (List.append_eq_nil.mp hdata).1
    have hm : ∃ l ∈ splitOnNl md.data, classifyLine l = some m := by
      have : m ∈ parseMd md.data := by rw [hpm2]; exact List.mem_cons_self _ _
      exact List.mem_filterMap.mp this
    obtain ⟨l, _, hcl⟩ := hm
    exact serializeNode_ne_nil
      (topOk_minify (topOk_raw (topOk_katex (topOk_figure (topOk_prism
        (topOk_of_classifyLine hcl)))))) hnil

/-- Witness for C3's amended theorem at the input `"hello"`. -/
theorem render_nonempty_witness :
    (∃ l ∈ splitOnNl "hello".data, isBlank l = false) ∧
    render "hello" ≠ "" :=
  ⟨⟨"hello".data, by decide, by decide⟩,
   render_nonempty_of_nonblank "hello" ⟨"hello".data, by decide, by decide⟩⟩

/-! ## Claim C9: language exclusion and sorting -/

/-- The order the handler sorts by: non-increasing `persentase`. -/
def descBy (a b : LanguageStat) : Prop :=
  b.persentase ≤ a.persentase

/-- Membership in an insertion is membership in the parts. -/
theorem mem_insertDesc {a x : LanguageStat} :
    ∀ {l : List LanguageStat}, a ∈ insertDesc x l ↔ a = x ∨ a ∈ l := by
  intro l
  induction l with
  | nil => simp [insertDesc]
  | cons y ys ih =>
    rw [insertDesc]
    split_ifs
    · simp [List.mem_cons]
    · simp only [List.mem_cons, ih]
      tauto

/-- Inserting into a descending-sorted list keeps it sorted. -/
theorem sorted_insertDesc {x : LanguageStat} :
    ∀ {l : List LanguageStat}, List.Sorted descBy l →
      List.Sorted descBy (insertDesc x l) := by
  intro l
  induction l with
  | nil => intro _; exact List.sorted_singleton x
  | cons y ys ih =>
    intro hs
    rw [List.sorted_cons] at hs
    obtain ⟨hy, hys⟩ := hs
    rw [insertDesc]
    split_ifs with hle
    · rw [List.sorted_cons]
      refine ⟨fun b hb => ?_, List.sorted_cons.mpr ⟨hy, hys⟩⟩
      rcases List.mem_cons.mp hb with rfl | hbys
      · exact hle
      · exact le_trans (hy b hbys) hle
    · rw [List.sorted_cons]
      refine ⟨fun b hb => ?_, ih hys⟩
      rcases mem_insertDesc.mp hb with rfl | hbys
      · exact le_of_lt (lt_of_not_le hle)
      · exact hy b hbys

/-- The handler's sort produces a descending-sorted list. -/
theorem sorted_sortDesc : ∀ l, List.Sorted descBy (sortDesc l) := by
  intro l
  induction l with
  | nil => exact List.sorted_nil
  | cons x xs ih =>
    rw [show sortDesc (x :: xs) = insertDesc x (sortDesc xs) from rfl]
    exact sorted_insertDesc ih

/-- The handler's sort neither adds nor removes entries. -/
theorem mem_sortDesc {a : LanguageStat} :
    ∀ {l : List LanguageStat}, a ∈ sortDesc l ↔ a ∈ l := by
  intro l
  induction l with
  | nil => simp [sortDesc]
  | cons x xs ih =>
    rw [show sortDesc (x :: xs) = insertDesc x (sortDesc xs) from rfl]
    rw [mem_insertDesc, ih, List.mem_cons]

/-- Keys of the accumulator after one bump come from the old keys or
the bumped language. -/
theorem key_mem_bump {k lang : String} {inc : ℚ} :
    ∀ {acc : List (String × ℚ)},
      k ∈ (bump acc lang inc).map Prod.fst →
      k = lang ∨ k ∈ acc.map Prod.fst := by
  intro acc
  induction acc with
  | nil => intro h; simp [bump] at h; exact Or.inl h
  | cons kv rest ih =>
    obtain ⟨k0, v0⟩ := kv
    intro h
    rw [bump] at h
    split_ifs at h with hk
    · rw [List.map_cons] at h
      rcases List.mem_cons.mp h with rfl | hm
      · exact Or.inl hk
      · exact Or.inr (by rw [List.map_cons]; exact List.mem_cons_of_mem _ hm)
    · rw [List.map_cons] at h
      rcases List.mem_cons.mp h with rfl | hm
      · exact Or.inr (by rw [List.map_cons]; exact List.mem_cons_self _ _)
      · rcases ih hm with hl | hr
        · exact Or.inl hl
        · exact Or.inr (by rw [List.map_cons]; exact List.mem_cons_of_mem _ hr)

/-- Keys of the folded accumulator come from the initial keys or the
language list. -/
theorem key_mem_foldl_bump {k : String} {inc : ℚ} :
    ∀ (langs : List String) (acc : List (String × ℚ)),
      k ∈ (langs.foldl (fun a l => bump a l inc) acc).map Prod.fst →
      k ∈ acc.map Prod.fst ∨ k ∈ langs := by
  intro langs
  induction langs with
  | nil => intro acc h; exact Or.inl h
  | cons l ls ih =>
    intro acc h
    rw [List.foldl_cons] at h
    rcases ih (bump acc l inc) h with hacc | hls
    · rcases key_mem_bump hacc with rfl | hk
      · exact Or.inr (List.mem_cons_self _ _)
      · exact Or.inl hk
    · exact Or.inr (List.mem_cons_of_mem _ hls)

/-- C9: the language-usage handler's response never contains an entry
named `"HTML"`, `"CSS"` or `"Jupyter Notebook"`, and is sorted in
non-increasing order of `persentase`. -/
theorem language_stats_filtered_sorted (repositories : List GithubRepository) :
    (∀ st ∈ languagesStats repositories,
      isExcludedLanguage st.name = false) ∧
    List.Sorted descBy (languagesStats repositories) := by
  constructor
  · intro st hst
    rw [languagesStats, statsOfLanguages] at hst
    rw [mem_sortDesc] at hst
    rcases List.mem_map.mp hst with ⟨p, hp, rfl⟩
    have hkey := key_mem_foldl_bump (keptLanguages repositories) []
      (List.mem_map_of_mem Prod.fst hp)
    rcases hkey with habs | hlang
    · cases habs
    · rw [keptLanguages] at hlang
      rcases List.mem_map.mp hlang with ⟨r, hr, hlr⟩
      have hcond := (List.mem_filter.mp hr).2
      rw [Bool.and_eq_true] at hcond
      have := hcond.2
      rw [Bool.not_eq_true'] at this
      rw [hlr] at this
      exact this
  · rw [languagesStats, statsOfLanguages]
    exact sorted_sortDesc _

/-- Witness for C9's universally quantified exclusion clause at a
concrete upstream list containing an HTML repository. -/
theorem language_stats_witness :
    (⟨"Go", 100⟩ : LanguageStat) ∈
      languagesStats [⟨false, "Go", 3⟩, ⟨false, "HTML", 2⟩] ∧
    isExcludedLanguage
      ((⟨"Go", 100⟩ : LanguageStat)).name = false := by
  have hmem : (⟨"Go", 100⟩ : LanguageStat) ∈
      languagesStats [⟨false, "Go", 3⟩, ⟨false, "HTML", 2⟩] := by
    have h1 : decide ("Go" = "HTML") = false := by decide
    have h2 : decide ("Go" = "CSS") = false := by decide
    have h3 : decide ("Go" = "Jupyter Notebook") = false := by decide
    norm_num [languagesStats, statsOfLanguages, keptLanguages,
      isExcludedLanguage, bump, sortDesc, insertDesc, List.filter, h1, h2, h3]
  exact ⟨hmem,
    (language_stats_filtered_sorted [⟨false, "Go", 3⟩, ⟨false, "HTML", 2⟩]).1
      ⟨"Go", 100⟩ hmem⟩

end Josestg
